import Mathlib

/-!
Verification of the ACPC poker betting-state engine (Rust wrapper `lib.rs`
around the native ACPC game core).

The Rust crate under `src/` is a thin FFI wrapper: the betting-state machine
itself (`initState`, `currentPlayer`, `isValidAction`, `raiseIsValid`,
`doAction`, `valueOfState`, `numFolded`, …) lives in the native C sources that
are compiled by `acpc-server-sys/build.rs` and are not part of the Rust tree.
Definitions for those native operations are therefore modelled from the
specification document; the Rust-side wrappers (`State::do_action`,
`State::value_of_state`, `Game::player_idx`, `State::set_board_cards`,
`State::board_cards`, `State::is_finished`, …) are embedded directly from
`src/src/lib.rs`.

Chip amounts are `i32` in the source and are modelled as `Int`; payoffs are
`f64` in the source, and the spec requires the zero-sum identity to hold
exactly, so payoffs are modelled as exact rationals `ℚ`.
-/

namespace Acpc

/-- A card is a small integer (Rust `pub type Card = u8`). -/
abbrev Card := Nat

/-- Sentinel for a card that has not been dealt (Rust `const NOT_DEALT: u8 = 255`). -/
def NOT_DEALT : Card := 255

/-- Rust `enum Action { Fold, Call, Raise(i32), Invalid }`. -/
inductive Action where
  | fold : Action
  | call : Action
  | raise : Int → Action
  | invalid : Action
deriving DecidableEq, Repr

/-- Modelled from the spec: the limit type of a game — fixed raise size per
round versus no-limit (spec §3 GameDefinition). -/
inductive BettingType where
  | limitBetting : BettingType
  | noLimitBetting : BettingType
deriving DecidableEq, Repr

/-- Modelled from the spec: the immutable `GameDefinition` (spec §3): number of
players, number of betting rounds, per-player starting stack and blind,
limit-type together with the per-round fixed raise size and raise cap for
limit games, the first player to act in each round ("the game's positional
order"), per-player hole-card count and the board-card schedule.  The hand
evaluator is an external collaborator (spec §6), a pure function
`rank(cards) -> HandRank` with a total order, stored here as a field.
Per-player and per-round data are total functions; only indices below
`numPlayers` (resp. `numRounds`) are meaningful. -/
structure Game where
  numPlayers : Nat
  numRounds : Nat
  stack : Nat → Int
  blind : Nat → Int
  bettingType : BettingType
  raiseSize : Nat → Int
  maxRaises : Nat → Nat
  firstPlayer : Nat → Nat
  numHoleCards : Nat
  numBoardCards : Nat → Nat
  rank : List Card → Nat

/-- Modelled from the spec: constraints a trusted game definition satisfies
(spec §3: players ≤ 10, rounds ≤ 4, every index used is in range; blinds are
seeded into `spent`, so `0 ≤ blind ≤ stack` must hold for the invariant
`0 ≤ spent[p] ≤ stack[p]`; a fixed limit raise size is positive). -/
def ValidGame (g : Game) : Prop :=
  2 ≤ g.numPlayers ∧ g.numPlayers ≤ 10 ∧
  1 ≤ g.numRounds ∧ g.numRounds ≤ 4 ∧
  (∀ p ∈ Finset.range g.numPlayers, 0 ≤ g.blind p ∧ g.blind p ≤ g.stack p) ∧
  (∀ r ∈ Finset.range g.numRounds, g.firstPlayer r < g.numPlayers) ∧
  (g.bettingType = BettingType.limitBetting →
    ∀ r ∈ Finset.range g.numRounds, 1 ≤ g.raiseSize r)

instance (g : Game) : Decidable (ValidGame g) := by
  unfold ValidGame; infer_instance

/-- The per-hand mutable betting state (Rust `acpc::State` behind
`State::state_`; spec §3 BettingState): current round, finished flag,
per-player cumulative commitment `spent`, `maxSpent`, the no-limit
minimum-next-raise increment, a per-round ordered action log (actor and
action), per-player folded flags, board cards and per-player hole cards. -/
structure HandState where
  maxSpent : Int
  minNoLimitRaiseIncrement : Int
  spent : Nat → Int
  log : Nat → List (Nat × Action)
  round : Nat
  finished : Bool
  playerFolded : Nat → Bool
  boardCards : List Card
  holeCards : Nat → List Card

/-- Rust `Game::player_idx`: fails with the invalid-player-index error when
the index is not below the player count (`src/src/lib.rs:90-96`). -/
def player_idx (g : Game) (player : Nat) : Except String Nat :=
  if g.numPlayers ≤ player then
    Except.error ("Invalid player index " ++ toString player)
  else
    Except.ok player

/-- Rust `State::is_finished`: reads the state's finished flag
(`src/src/lib.rs:297-303`). -/
def is_finished (s : HandState) : Bool :=
  s.finished

/-- Modelled from the spec: the largest blind, used to seed `maxSpent` at
initialization (spec §4.2 Initialization). -/
def maxBlind (g : Game) : Int :=
  ((List.range g.numPlayers).map g.blind).foldr max 0

/-- Modelled from the spec: hand initialization (native `initState`; spec §4.2):
seeds each player's `spent` with their blind, sets `maxSpent` to the largest
blind, round 0, not finished, nobody folded, empty action logs, all cards at
the not-dealt sentinel.  The initial no-limit minimum raise increment is not
stated explicitly by the spec; the reference scenario (spec §8: blinds
50/100/0 give `raise_size() == (200, 20000)` right after initialization)
forces it to be the largest blind, with 1 as a floor when all blinds are 0. -/
def initState (g : Game) : HandState :=
  { maxSpent := maxBlind g
    minNoLimitRaiseIncrement := max (maxBlind g) 1
    spent := g.blind
    log := fun _ => []
    round := 0
    finished := false
    playerFolded := fun _ => false
    boardCards := List.replicate 7 NOT_DEALT
    holeCards := fun _ => List.replicate 3 NOT_DEALT }

/-- Modelled from the spec: a player can still act when they are neither
folded nor all-in (spec §4.2 `current_player`, glossary "All-in"). -/
def canAct (g : Game) (s : HandState) (p : Nat) : Bool :=
  !s.playerFolded p && decide (s.spent p < g.stack p)

/-- Modelled from the spec: search in turn order (increasing player index,
wrapping around) for the next player who can still act, with fuel bounding
the search to one lap. -/
def nextActorFrom (g : Game) (s : HandState) : Nat → Nat → Option Nat
  | _, 0 => none
  | start, fuel + 1 =>
    if canAct g s (start % g.numPlayers) then some (start % g.numPlayers)
    else nextActorFrom g s (start + 1) fuel

/-- Modelled from the spec: native `currentPlayer` (spec §4.2): the next
non-folded, non-all-in player in turn order after the last actor within the
current round, or from the round's first positional actor when nobody has
acted yet in the round; undefined (`none`) once the hand is finished. -/
def current_player (g : Game) (s : HandState) : Option Nat :=
  if s.finished then none
  else
    let start :=
      match (s.log s.round).getLast? with
      | some e => e.1 + 1
      | none => g.firstPlayer s.round
    nextActorFrom g s start g.numPlayers

/-- Modelled from the spec: raises made so far in the current round, which the
per-round raise cap of a limit game counts (spec §4.2 `raise_size`). -/
def raisesThisRound (s : HandState) : Nat :=
  ((s.log s.round).filter (fun e => match e.2 with | Action.raise _ => true | _ => false)).length

/-- Modelled from the spec: native `raiseIsValid` (spec §4.2 `raise_size`):
returns `(minTarget, maxTarget)`, or fails when the acting player cannot
raise — the player has no chips beyond matching `maxSpent`, or a limit game's
per-round raise cap is reached.  Limit games: `minTarget = maxTarget =
maxSpent + fixedRaiseSize(round)` capped at the player's stack.  No-limit
games: `minTarget = min(maxSpent + minNoLimitRaiseIncrement, playerStack)`
and `maxTarget = playerStack`. -/
def raiseBounds (g : Game) (s : HandState) : Option (Int × Int) :=
  match current_player g s with
  | none => none
  | some p =>
    if g.stack p ≤ s.maxSpent then none
    else
      match g.bettingType with
      | BettingType.limitBetting =>
        if g.maxRaises s.round ≤ raisesThisRound s then none
        else
          let t := min (s.maxSpent + g.raiseSize s.round) (g.stack p)
          some (t, t)
      | BettingType.noLimitBetting =>
        some (min (s.maxSpent + s.minNoLimitRaiseIncrement) (g.stack p), g.stack p)

/-- Rust `State::raise_size` (`src/src/lib.rs:206-221`): surfaces the native
raise bounds, reporting an error when the player cannot raise now. -/
def raise_size (g : Game) (s : HandState) : Except String (Int × Int) :=
  match raiseBounds g s with
  | none => Except.error "player Can not raise now."
  | some b => Except.ok b

/-- Modelled from the spec: native `isValidAction` as exposed by Rust
`State::is_valid_action` (spec §4.2): no action is valid on a finished hand
(the state becomes read-only once finished and the current actor is undefined);
Fold and Call are valid iff the acting player has not already folded and is
not all-in; `Raise(target)` is valid iff `target` lies in the range returned
by `raise_size()`; `Invalid` is never valid. -/
def is_valid_action (g : Game) (s : HandState) (a : Action) : Bool :=
  if s.finished then false
  else
    match current_player g s with
    | none => false
    | some p =>
      match a with
      | Action.fold => !s.playerFolded p && decide (s.spent p < g.stack p)
      | Action.call => !s.playerFolded p && decide (s.spent p < g.stack p)
      | Action.raise t =>
        match raiseBounds g s with
        | some b => decide (b.1 ≤ t) && decide (t ≤ b.2)
        | none => false
      | Action.invalid => false

/-- Modelled from the spec: the number of players who have not folded
(complement of native `numFolded`). -/
def numNonFolded (g : Game) (s : HandState) : Nat :=
  ((Finset.range g.numPlayers).filter (fun p => s.playerFolded p = false)).card

/-- Modelled from the spec: every non-folded player is all-in, the condition
for the all-in short-circuit (spec §4.2 `do_action`). -/
def allNonFoldedAllIn (g : Game) (s : HandState) : Prop :=
  ∀ p ∈ Finset.range g.numPlayers, s.playerFolded p = false → g.stack p ≤ s.spent p

instance (g : Game) (s : HandState) : Decidable (allNonFoldedAllIn g s) := by
  unfold allNonFoldedAllIn; infer_instance

/-- Modelled from the spec: player `p` has acted at least once in the current
round, read off the round's action log. -/
def actedThisRound (s : HandState) (p : Nat) : Prop :=
  p ∈ (s.log s.round).map Prod.fst

instance (s : HandState) (p : Nat) : Decidable (actedThisRound s p) := by
  unfold actedThisRound; infer_instance

/-- Modelled from the spec: the round-completion condition (spec §4.2
`do_action`): every non-folded, non-all-in player has acted at least once in
the round, and every non-folded player's commitment equals `maxSpent`. -/
def roundComplete (g : Game) (s : HandState) : Prop :=
  ∀ p ∈ Finset.range g.numPlayers, s.playerFolded p = false →
    s.spent p = s.maxSpent ∧ (s.spent p < g.stack p → actedThisRound s p)

instance (g : Game) (s : HandState) : Decidable (roundComplete g s) := by
  unfold roundComplete; infer_instance

/-- Modelled from the spec: the checks run after every successful action
(spec §4.2 `do_action`): if only one non-folded player remains the hand is
immediately finished regardless of round; if every remaining non-folded
player is all-in, the hand proceeds straight to finished (board cards for the
skipped rounds come from the external dealer and are outside this state); if
the round-completion condition holds, the hand is finished after the last
round and otherwise moves to the next round (whose log is still empty, so
the new round's action count is 0 and its first actor is selected by
`current_player` from the round's positional order). -/
def advanceIfNeeded (g : Game) (s : HandState) : HandState :=
  if numNonFolded g s ≤ 1 then { s with finished := true }
  else if allNonFoldedAllIn g s then { s with finished := true }
  else if roundComplete g s then
    if s.round + 1 < g.numRounds then { s with round := s.round + 1 }
    else { s with finished := true }
  else s

/-- Modelled from the spec: append an entry to the current round's action log
(spec §3: per-round ordered action log). -/
def logAdd (s : HandState) (p : Nat) (a : Action) : Nat → List (Nat × Action) :=
  fun r => if r = s.round then s.log s.round ++ [(p, a)] else s.log r

/-- Modelled from the spec: the state update of native `doAction` for an
action that has already been validated (spec §4.2 `do_action`): Fold marks
the actor folded; Call sets the actor's commitment to `maxSpent` capped at
their stack (an all-in call when the stack is smaller); `Raise(t)` sets the
actor's commitment and `maxSpent` to the absolute target `t` and, in a
no-limit game, the next minimum raise increment becomes `t − maxSpent`, the
size of the raise just made.  The action is logged and the round-advance /
finish checks run after every action. -/
def applyAction (g : Game) (s : HandState) (a : Action) : HandState :=
  match current_player g s with
  | none => s
  | some p =>
    match a with
    | Action.fold =>
      advanceIfNeeded g
        { s with
          playerFolded := fun q => if q = p then true else s.playerFolded q
          log := logAdd s p a }
    | Action.call =>
      advanceIfNeeded g
        { s with
          spent := fun q => if q = p then min s.maxSpent (g.stack p) else s.spent q
          log := logAdd s p a }
    | Action.raise t =>
      advanceIfNeeded g
        { s with
          spent := fun q => if q = p then t else s.spent q
          maxSpent := t
          minNoLimitRaiseIncrement :=
            match g.bettingType with
            | BettingType.noLimitBetting => t - s.maxSpent
            | BettingType.limitBetting => s.minNoLimitRaiseIncrement
          log := logAdd s p a }
    | Action.invalid => s

/-- Rust `State::do_action` (`src/src/lib.rs:232-244`): all-or-nothing — when
`is_valid_action` is false it reports the invalid-action error and returns
without touching the state; otherwise it applies the native `doAction`
update.  The pair mirrors the Rust `(Result<(), &str>, &mut self)` shape:
the second component is the state after the call. -/
def do_action (g : Game) (s : HandState) (a : Action) :
    Except String Unit × HandState :=
  if is_valid_action g s a then (Except.ok (), applyAction g s a)
  else (Except.error "Invalid Action", s)

/-- Modelled from the spec: the pot — the total chips committed by all
players (spec glossary), as an exact rational. -/
def potQ (g : Game) (s : HandState) : Rat :=
  ∑ p in Finset.range g.numPlayers, ((s.spent p : Rat))

/-- Rust `State::board_cards` (`src/src/lib.rs:340-344`): the prefix of the
7-slot board array before the first not-dealt sentinel. -/
def board_cards (s : HandState) : List Card :=
  s.boardCards.takeWhile (fun c => c != NOT_DEALT)

/-- Rust `State::set_board_cards` (`src/src/lib.rs:331-338`): writes the given
cards into a fresh 7-slot array initialized with the sentinel; there is no
validation against the round's board-card schedule (the assert is commented
out in the source).  More than 7 cards makes the Rust copy loop panic on an
out-of-bounds index, modelled as `none`. -/
def set_board_cards (s : HandState) (cards : List Card) : Option HandState :=
  if cards.length ≤ 7 then
    some { s with boardCards := cards ++ List.replicate (7 - cards.length) NOT_DEALT }
  else none

/-- Rust `State::set_hole_cards` (`src/src/lib.rs:315-323`): asserts that the
number of cards equals the game's hole-card count (panic modelled as `none`,
as is the out-of-bounds copy for more than 3 cards), checks the player index,
and writes the cards into a fresh zero-initialized 3-slot array. -/
def set_hole_cards (g : Game) (s : HandState) (player : Nat) (cards : List Card) :
    Option HandState :=
  if cards.length = g.numHoleCards ∧ cards.length ≤ 3 ∧ player < g.numPlayers then
    some { s with
      holeCards := fun q =>
        if q = player then cards ++ List.replicate (3 - cards.length) 0
        else s.holeCards q }
  else none

/-- Rust `State::hole_cards` (`src/src/lib.rs:325-329`): the first
`numHoleCards` entries of the player's 3-slot hole-card array. -/
def hole_cards (g : Game) (s : HandState) (player : Nat) : List Card :=
  (s.holeCards player).take g.numHoleCards

/-- Modelled from the spec: a showdown hand — the player's hole cards
concatenated with the final board cards — ranked by the external evaluator
(spec §4.3). -/
def rankOf (g : Game) (s : HandState) (p : Nat) : Nat :=
  g.rank (hole_cards g s p ++ board_cards s)

/-- Modelled from the spec: the best evaluator rank among non-folded
players (spec §4.3: higher rank wins). -/
def bestRank (g : Game) (s : HandState) : Nat :=
  (((List.range g.numPlayers).filter (fun p => !s.playerFolded p)).map
    (rankOf g s)).foldr max 0

/-- Modelled from the spec: a non-folded player sharing the top rank at
showdown (spec §4.3); folded players never receive a share. -/
def isWinner (g : Game) (s : HandState) (p : Nat) : Bool :=
  !s.playerFolded p && (rankOf g s p == bestRank g s)

/-- Modelled from the spec: the number of players sharing the top rank, among
whom the pot is split evenly (spec §4.3). -/
def numWinners (g : Game) (s : HandState) : Nat :=
  ((Finset.range g.numPlayers).filter (fun p => isWinner g s p = true)).card

/-- Modelled from the spec: native `valueOfState` on a finished hand (spec
§4.3).  A folded player's payoff is minus their own `spent`.  If exactly one
player never folded, that player's payoff is the sum of all opponents'
`spent`.  Otherwise, at showdown, the pot is split evenly among the players
sharing the top rank: a winner receives their pot share minus their own
`spent`, every other player loses their own `spent`.  Payoffs are exact
rationals (`f64` in the source; the spec demands the zero-sum identity hold
exactly). -/
def valueOfState (g : Game) (s : HandState) (p : Nat) : Rat :=
  if s.playerFolded p then -((s.spent p : Rat))
  else if numNonFolded g s = 1 then
    ∑ q in (Finset.range g.numPlayers).erase p, ((s.spent q : Rat))
  else if isWinner g s p then
    potQ g s / (numWinners g s : Rat) - ((s.spent p : Rat))
  else -((s.spent p : Rat))

/-- Rust `State::value_of_state` (`src/src/lib.rs:193-203`): reports the
not-finished error first; only then is the player index validated by
`Game::player_idx`; only when both checks pass is the native payoff
returned. -/
def value_of_state (g : Game) (s : HandState) (player : Nat) : Except String Rat :=
  if !(is_finished s) then Except.error "Game is not finished"
  else
    match player_idx g player with
    | Except.error e => Except.error e
    | Except.ok idx => Except.ok (valueOfState g s idx)

/-- Rust `State::player_folded` (`src/src/lib.rs:156-159`): checks the player
index, then reads the folded flag. -/
def player_folded (g : Game) (s : HandState) (player : Nat) : Except String Bool :=
  match player_idx g player with
  | Except.error e => Except.error e
  | Except.ok idx => Except.ok (s.playerFolded idx)

/-- The sum of the native payoffs over all players of the game. -/
def sumValues (g : Game) (s : HandState) : Rat :=
  ∑ p in Finset.range g.numPlayers, valueOfState g s p

/-- Reachable states of one hand: the initializer's state, followed by any
sequence of successful `do_action` calls, with the external dealer free to
supply board and hole cards between actions (spec §2 control flow). -/
inductive Reachable (g : Game) : HandState → Prop where
  | init : Reachable g (initState g)
  | step {s s' : HandState} {a : Action} : Reachable g s →
      do_action g s a = (Except.ok (), s') → Reachable g s'
  | setBoard {s s' : HandState} {cards : List Card} : Reachable g s →
      set_board_cards s cards = some s' → Reachable g s'
  | setHole {s s' : HandState} {player : Nat} {cards : List Card} : Reachable g s →
      set_hole_cards g s player cards = some s' → Reachable g s'

/-- One successful betting step between two states. -/
def StepTo (g : Game) (s s' : HandState) : Prop :=
  (∃ a, do_action g s a = (Except.ok (), s')) ∨
  (∃ cards, set_board_cards s cards = some s') ∨
  (∃ player cards, set_hole_cards g s player cards = some s')

/-- `s'` occurs at or after `s` in the same hand. -/
def Reaches (g : Game) : HandState → HandState → Prop :=
  Relation.ReflTransGen (StepTo g)

/-- The reference 3-player no-limit game of the repository tests and the
spec's reference scenario (`resources/holdem.nolimit.3p.game`): stacks
20000/20000/20000, blinds 50/100/0, 4 rounds, player 2 acts first before the
flop.  The external evaluator is irrelevant to the betting traces and is
instantiated with a constant. -/
def holdemNoLimit3p : Game :=
  { numPlayers := 3
    numRounds := 4
    stack := fun _ => 20000
    blind := fun p => if p = 0 then 50 else if p = 1 then 100 else 0
    bettingType := BettingType.noLimitBetting
    raiseSize := fun _ => 100
    maxRaises := fun _ => 8
    firstPlayer := fun r => if r = 0 then 2 else 0
    numHoleCards := 2
    numBoardCards := fun r => if r = 0 then 0 else if r = 1 then 3 else if r = 2 then 4 else 5
    rank := fun _ => 0 }

/-- The spec's reference raise scenario, first state: right after
initialization. -/
def refTrace0 : HandState := initState holdemNoLimit3p

/-- Reference scenario after `Raise(200)`. -/
def refTrace1 : HandState := (do_action holdemNoLimit3p refTrace0 (Action.raise 200)).2

/-- Reference scenario after a further `Raise(1000)`. -/
def refTrace2 : HandState := (do_action holdemNoLimit3p refTrace1 (Action.raise 1000)).2

-- Traces of the repository test suite, replayed on the model below:
-- `current_player`/`player_folded` (t...), `num_called`/`money_and_ante` (u...)
-- and `play_until_showdown` (w...).
def t0 : HandState := initState holdemNoLimit3p
def t1 : HandState := (do_action holdemNoLimit3p t0 Action.fold).2
def t2 : HandState := (do_action holdemNoLimit3p t1 (Action.raise 200)).2
def t3 : HandState := (do_action holdemNoLimit3p t2 (Action.raise 500)).2

def u1 : HandState := (do_action holdemNoLimit3p t0 Action.call).2
def u2 : HandState := (do_action holdemNoLimit3p u1 (Action.raise 200)).2
def u3 : HandState := (do_action holdemNoLimit3p u2 (Action.raise 1000)).2
def u4 : HandState := (do_action holdemNoLimit3p u3 Action.call).2
def u5 : HandState := (do_action holdemNoLimit3p u4 (Action.raise 2000)).2
def u6 : HandState := (do_action holdemNoLimit3p u5 Action.call).2
def u7 : HandState := (do_action holdemNoLimit3p u6 Action.fold).2
def w1 : HandState := (do_action holdemNoLimit3p t0 Action.call).2
def w2 : HandState := (do_action holdemNoLimit3p w1 Action.call).2
def w3 : HandState := (do_action holdemNoLimit3p w2 Action.call).2
def w4 : HandState := (do_action holdemNoLimit3p w3 Action.call).2
def w5 : HandState := (do_action holdemNoLimit3p w4 Action.call).2
def w6 : HandState := (do_action holdemNoLimit3p w5 Action.call).2
def w7 : HandState := (do_action holdemNoLimit3p w6 Action.call).2
def w8 : HandState := (do_action holdemNoLimit3p w7 Action.call).2
def w9 : HandState := (do_action holdemNoLimit3p w8 Action.call).2
def wA : HandState := (do_action holdemNoLimit3p w9 Action.call).2
def wB : HandState := (do_action holdemNoLimit3p wA Action.call).2
def wC : HandState := (do_action holdemNoLimit3p wB Action.call).2
/-- A 3-player no-limit game with unequal stacks (20000/150/150), blinds
50/100/0: the fixture of the correction of the `maxSpent` claim. -/
def unequal3p : Game :=
  { numPlayers := 3
    numRounds := 2
    stack := fun p => if p = 0 then 20000 else 150
    blind := fun p => if p = 0 then 50 else if p = 1 then 100 else 0
    bettingType := BettingType.noLimitBetting
    raiseSize := fun _ => 100
    maxRaises := fun _ => 8
    firstPlayer := fun _ => 2
    numHoleCards := 2
    numBoardCards := fun _ => 0
    rank := fun _ => 0 }

-- In `unequal3p`: player 2 folds, player 0 raises to 1000, player 1 calls
-- all-in for 150, player 0 folds; `cx4` is finished with `maxSpent = 1000`
-- while the only non-folded player has `spent = 150`.
def cx0 : HandState := initState unequal3p
def cx1 : HandState := (do_action unequal3p cx0 Action.fold).2
def cx2 : HandState := (do_action unequal3p cx1 (Action.raise 1000)).2
def cx3 : HandState := (do_action unequal3p cx2 Action.call).2
def cx4 : HandState := (do_action unequal3p cx3 Action.fold).2

/-- A plain heads-up no-limit fixture used for witnesses: 2 players, stacks
20000, blinds 50/100, player 0 acts first. -/
def headsUp2p : Game :=
  { numPlayers := 2
    numRounds := 4
    stack := fun _ => 20000
    blind := fun p => if p = 0 then 50 else if p = 1 then 100 else 0
    bettingType := BettingType.noLimitBetting
    raiseSize := fun _ => 100
    maxRaises := fun _ => 8
    firstPlayer := fun _ => 0
    numHoleCards := 2
    numBoardCards := fun r => if r = 0 then 0 else if r = 1 then 3 else if r = 2 then 4 else 5
    rank := fun _ => 0 }

/-- Heads-up fixture, initial state. -/
def headsUp0 : HandState := initState headsUp2p

/-- Heads-up fixture after player 0 folds: the hand is finished at once. -/
def headsUp1 : HandState := (do_action headsUp2p headsUp0 Action.fold).2

/-- The `maxSpent` part of claim C5 exactly as stated: `maxSpent` equals the
maximum of `spent[p]` over the non-folded players (it is an upper bound and
it is attained by a non-folded player). -/
def maxSpent_nonfolded_claim (g : Game) (s : HandState) : Prop :=
  (∀ p ∈ Finset.range g.numPlayers, s.playerFolded p = false → s.spent p ≤ s.maxSpent) ∧
  (∃ p ∈ Finset.range g.numPlayers, s.playerFolded p = false ∧ s.spent p = s.maxSpent)

instance (g : Game) (s : HandState) : Decidable (maxSpent_nonfolded_claim g s) := by
  unfold maxSpent_nonfolded_claim; infer_instance

/-! ### Basic lemmas about the model -/

theorem foldr_max_le_int {l : List Int} {x : Int} (hx : x ∈ l) : x ≤ l.foldr max 0 := by
  induction l with
  | nil => cases hx
  | cons a l ih =>
    rcases List.mem_cons.mp hx with h | h
    · subst h; exact le_max_left _ _
    · exact le_trans (ih h) (le_max_right _ _)

theorem foldr_max_mem_int {l : List Int} (hne : l ≠ []) (hnn : ∀ x ∈ l, 0 ≤ x) :
    l.foldr max 0 ∈ l := by
  induction l with
  | nil => exact absurd rfl hne
  | cons a l ih =>
    cases l with
    | nil =>
      simp only [List.foldr]
      have ha : (0 : Int) ≤ a := hnn a (List.mem_cons_self _ _)
      simp [max_eq_left ha]
    | cons b m =>
      have hmem := ih (by simp) (fun x hx => hnn x (List.mem_cons_of_mem _ hx))
      show max a ((b :: m).foldr max 0) ∈ a :: b :: m
      rcases max_choice a ((b :: m).foldr max 0) with h | h
      · rw [h]; exact List.mem_cons_self _ _
      · rw [h]; exact List.mem_cons_of_mem _ hmem

theorem foldr_max_le_nat {l : List Nat} {x : Nat} (hx : x ∈ l) : x ≤ l.foldr max 0 := by
  induction l with
  | nil => cases hx
  | cons a l ih =>
    rcases List.mem_cons.mp hx with h | h
    · subst h; exact le_max_left _ _
    · exact le_trans (ih h) (le_max_right _ _)

theorem foldr_max_mem_nat {l : List Nat} (hne : l ≠ []) : l.foldr max 0 ∈ l := by
  induction l with
  | nil => exact absurd rfl hne
  | cons a l ih =>
    cases l with
    | nil => simp
    | cons b m =>
      have hmem := ih (by simp)
      show max a ((b :: m).foldr max 0) ∈ a :: b :: m
      rcases max_choice a ((b :: m).foldr max 0) with h | h
      · rw [h]; exact List.mem_cons_self _ _
      · rw [h]; exact List.mem_cons_of_mem _ hmem

theorem nextActorFrom_some {g : Game} {s : HandState} {start fuel p : Nat}
    (h : nextActorFrom g s start fuel = some p) :
    s.playerFolded p = false ∧ s.spent p < g.stack p ∧ (0 < g.numPlayers → p < g.numPlayers) := by
  induction fuel generalizing start with
  | zero => simp [nextActorFrom] at h
  | succ fuel ih =>
    unfold nextActorFrom at h
    by_cases hc : canAct g s (start % g.numPlayers)
    · rw [if_pos hc] at h
      have hp : p = start % g.numPlayers := by injection h with h; omega
      subst hp
      unfold canAct at hc
      have h1 := (Bool.and_eq_true _ _).mp hc
      refine ⟨?_, ?_, ?_⟩
      · exact (Bool.not_eq_true' _).mp h1.1
      · exact of_decide_eq_true h1.2
      · intro hn; exact Nat.mod_lt _ hn
    · rw [if_neg hc] at h
      exact ih h

theorem current_player_spec {g : Game} {s : HandState} {p : Nat}
    (h : current_player g s = some p) :
    s.finished = false ∧ s.playerFolded p = false ∧ s.spent p < g.stack p ∧
      (0 < g.numPlayers → p < g.numPlayers) := by
  unfold current_player at h
  by_cases hf : s.finished
  · rw [if_pos hf] at h; cases h
  · rw [if_neg hf] at h
    exact ⟨(Bool.not_eq_true _).mp hf, nextActorFrom_some h⟩

theorem valid_shape {g : Game} {s : HandState} {a : Action}
    (h : is_valid_action g s a = true) :
    s.finished = false ∧ ∃ p, current_player g s = some p := by
  unfold is_valid_action at h
  by_cases hf : s.finished
  · rw [if_pos hf] at h; cases h
  · refine ⟨(Bool.not_eq_true _).mp hf, ?_⟩
    rw [if_neg hf] at h
    cases hcp : current_player g s with
    | none => rw [hcp] at h; cases h
    | some p => exact ⟨p, rfl⟩

theorem valid_raise {g : Game} {s : HandState} {t : Int}
    (h : is_valid_action g s (Action.raise t) = true) :
    ∃ mn mx, raiseBounds g s = some (mn, mx) ∧ mn ≤ t ∧ t ≤ mx := by
  unfold is_valid_action at h
  by_cases hf : s.finished
  · rw [if_pos hf] at h; cases h
  · rw [if_neg hf] at h
    cases hcp : current_player g s with
    | none => rw [hcp] at h; cases h
    | some p =>
      rw [hcp] at h
      simp only at h
      cases hb : raiseBounds g s with
      | none => rw [hb] at h; cases h
      | some b =>
        obtain ⟨b1, b2⟩ := b
        rw [hb] at h
        have h1 := (Bool.and_eq_true _ _).mp h
        exact ⟨b1, b2, rfl, of_decide_eq_true h1.1, of_decide_eq_true h1.2⟩

theorem invalid_raise_of_no_bounds {g : Game} {s : HandState} {t : Int}
    (h : raiseBounds g s = none) : is_valid_action g s (Action.raise t) = false := by
  unfold is_valid_action
  by_cases hf : s.finished
  · rw [if_pos hf]
  · rw [if_neg hf]
    cases hcp : current_player g s with
    | none => rfl
    | some p => simp only [h]

theorem do_action_ok {g : Game} {s : HandState} {a : Action} {s' : HandState}
    (h : do_action g s a = (Except.ok (), s')) :
    is_valid_action g s a = true ∧ s' = applyAction g s a := by
  unfold do_action at h
  by_cases hv : is_valid_action g s a
  · rw [if_pos hv] at h
    exact ⟨hv, (congrArg Prod.snd h).symm⟩
  · rw [if_neg hv] at h
    exact absurd (congrArg Prod.fst h) (by simp)

theorem advance_spent (g : Game) (s : HandState) :
    (advanceIfNeeded g s).spent = s.spent := by
  unfold advanceIfNeeded; split_ifs <;> rfl

theorem advance_maxSpent (g : Game) (s : HandState) :
    (advanceIfNeeded g s).maxSpent = s.maxSpent := by
  unfold advanceIfNeeded; split_ifs <;> rfl

theorem advance_inc (g : Game) (s : HandState) :
    (advanceIfNeeded g s).minNoLimitRaiseIncrement = s.minNoLimitRaiseIncrement := by
  unfold advanceIfNeeded; split_ifs <;> rfl

theorem advance_folded (g : Game) (s : HandState) :
    (advanceIfNeeded g s).playerFolded = s.playerFolded := by
  unfold advanceIfNeeded; split_ifs <;> rfl

theorem advance_numNonFolded (g : Game) (s : HandState) :
    numNonFolded g (advanceIfNeeded g s) = numNonFolded g s := by
  unfold numNonFolded
  rw [advance_folded]

theorem advance_round_cases (g : Game) (s : HandState) :
    (advanceIfNeeded g s).round = s.round ∨
      ((advanceIfNeeded g s).round = s.round + 1 ∧ s.round + 1 < g.numRounds) := by
  unfold advanceIfNeeded
  split_ifs with h1 h2 h3 h4
  · exact Or.inl rfl
  · exact Or.inl rfl
  · exact Or.inr ⟨rfl, h4⟩
  · exact Or.inl rfl
  · exact Or.inl rfl

theorem advance_finished_of_le_one {g : Game} {s : HandState}
    (h : numNonFolded g s ≤ 1) : advanceIfNeeded g s = { s with finished := true } := by
  unfold advanceIfNeeded
  rw [if_pos h]

theorem advance_not_finished {g : Game} {s : HandState}
    (h : (advanceIfNeeded g s).finished = false) :
    2 ≤ numNonFolded g s ∧ s.finished = false := by
  unfold advanceIfNeeded at h
  split_ifs at h with h1 h2 h3
  · exact ⟨by omega, h⟩
  · exact ⟨by omega, h⟩

/-- The inductive invariant of a hand (spec §3 invariant set, with `maxSpent`
attained over all players — folded included; the restriction to non-folded
players fails on reachable states, see the corrected claim about it).  It
also carries the auxiliary facts the preservation proof needs: at least one
player is never folded, an unfinished hand has at least two non-folded
players, the no-limit raise increment is positive, and the round index is in
range. -/
structure Inv (g : Game) (s : HandState) : Prop where
  spent_nonneg : ∀ p ∈ Finset.range g.numPlayers, 0 ≤ s.spent p
  spent_le_stack : ∀ p ∈ Finset.range g.numPlayers, s.spent p ≤ g.stack p
  spent_le_max : ∀ p ∈ Finset.range g.numPlayers, s.spent p ≤ s.maxSpent
  max_attained : ∃ p ∈ Finset.range g.numPlayers, s.spent p = s.maxSpent
  nonFolded_pos : 1 ≤ numNonFolded g s
  nonFolded_two : s.finished = false → 2 ≤ numNonFolded g s
  inc_pos : 1 ≤ s.minNoLimitRaiseIncrement
  round_lt : s.round < g.numRounds

theorem card_filter_update_true {n p : Nat} {old : Nat → Bool}
    (hp : p < n) (hold : old p = false) :
    ((Finset.range n).filter (fun q => (if q = p then true else old q) = false)).card
      = ((Finset.range n).filter (fun q => old q = false)).card - 1 := by
  have hmem : p ∈ (Finset.range n).filter (fun q => old q = false) :=
    Finset.mem_filter.mpr ⟨Finset.mem_range.mpr hp, hold⟩
  have hset : (Finset.range n).filter (fun q => (if q = p then true else old q) = false)
      = ((Finset.range n).filter (fun q => old q = false)).erase p := by
    ext q
    simp only [Finset.mem_filter, Finset.mem_erase, Finset.mem_range]
    by_cases hq : q = p
    · subst hq; simp
    · simp only [if_neg hq, hq]
      tauto
  rw [hset, Finset.card_erase_of_mem hmem]

theorem inv_init {g : Game} (hg : ValidGame g) : Inv g (initState g) := by
  obtain ⟨h2, -, hr1, -, hblind, -, -⟩ := hg
  have hcnt : numNonFolded g (initState g) = g.numPlayers := by
    unfold numNonFolded initState
    simp
  constructor
  · intro p hp; exact (hblind p hp).1
  · intro p hp
    show g.blind p ≤ g.stack p
    exact (hblind p hp).2
  · intro p hp
    refine foldr_max_le_int (List.mem_map_of_mem g.blind ?_)
    exact List.mem_range.mpr (Finset.mem_range.mp hp)
  · have hne : (List.range g.numPlayers).map g.blind ≠ [] := by
      simp [List.range_eq_nil]
      omega
    have hnn : ∀ x ∈ (List.range g.numPlayers).map g.blind, (0 : Int) ≤ x := by
      intro x hx
      obtain ⟨p, hp, rfl⟩ := List.mem_map.mp hx
      exact (hblind p (Finset.mem_range.mpr (List.mem_range.mp hp))).1
    obtain ⟨p, hp, heq⟩ := List.mem_map.mp (foldr_max_mem_int hne hnn)
    exact ⟨p, Finset.mem_range.mpr (List.mem_range.mp hp), heq⟩
  · rw [hcnt]; omega
  · intro _; rw [hcnt]; omega
  · exact le_max_right _ _
  · show 0 < g.numRounds
    omega

theorem inv_of_advance {g : Game} {s₁ : HandState}
    (h1 : ∀ p ∈ Finset.range g.numPlayers, 0 ≤ s₁.spent p)
    (h2 : ∀ p ∈ Finset.range g.numPlayers, s₁.spent p ≤ g.stack p)
    (h3 : ∀ p ∈ Finset.range g.numPlayers, s₁.spent p ≤ s₁.maxSpent)
    (h4 : ∃ p ∈ Finset.range g.numPlayers, s₁.spent p = s₁.maxSpent)
    (h5 : 1 ≤ numNonFolded g s₁)
    (h6 : 1 ≤ s₁.minNoLimitRaiseIncrement)
    (h7 : s₁.round < g.numRounds) :
    Inv g (advanceIfNeeded g s₁) := by
  constructor
  · rw [advance_spent]; exact h1
  · rw [advance_spent]; exact h2
  · rw [advance_spent, advance_maxSpent]; exact h3
  · rw [advance_spent, advance_maxSpent]; exact h4
  · rw [advance_numNonFolded]; exact h5
  · intro hf
    rw [advance_numNonFolded]
    exact (advance_not_finished hf).1
  · rw [advance_inc]; exact h6
  · rcases advance_round_cases g s₁ with h | ⟨heq, hlt⟩
    · rw [h]; exact h7
    · rw [heq]; exact hlt

theorem invalid_never {g : Game} {s : HandState} :
    is_valid_action g s Action.invalid = false := by
  unfold is_valid_action
  by_cases hf : s.finished
  · rw [if_pos hf]
  · rw [if_neg hf]
    cases current_player g s <;> rfl

theorem raise_facts {g : Game} {s : HandState} {p : Nat} {t : Int}
    (hg : ValidGame g) (hs : Inv g s) (hcp : current_player g s = some p)
    (hv : is_valid_action g s (Action.raise t) = true) :
    s.maxSpent < t ∧ t ≤ g.stack p := by
  obtain ⟨mn, mx, hb, hmn, hmx⟩ := valid_raise hv
  unfold raiseBounds at hb
  rw [hcp] at hb
  simp only at hb
  by_cases hms : g.stack p ≤ s.maxSpent
  · rw [if_pos hms] at hb; cases hb
  · rw [if_neg hms] at hb
    have hstack : s.maxSpent < g.stack p := by omega
    cases hbt : g.bettingType with
    | limitBetting =>
      rw [hbt] at hb
      by_cases hcap : g.maxRaises s.round ≤ raisesThisRound s
      · rw [if_pos hcap] at hb; cases hb
      · rw [if_neg hcap] at hb
        have hrs : 1 ≤ g.raiseSize s.round :=
          hg.2.2.2.2.2.2 hbt s.round (Finset.mem_range.mpr hs.round_lt)
        have hpair : (min (s.maxSpent + g.raiseSize s.round) (g.stack p),
            min (s.maxSpent + g.raiseSize s.round) (g.stack p)) = (mn, mx) := by
          injection hb
        have hmn1 : mn = min (s.maxSpent + g.raiseSize s.round) (g.stack p) :=
          (congrArg Prod.fst hpair).symm
        have hmx1 : mx = min (s.maxSpent + g.raiseSize s.round) (g.stack p) :=
          (congrArg Prod.snd hpair).symm
        constructor
        · have hlt : s.maxSpent < min (s.maxSpent + g.raiseSize s.round) (g.stack p) := by
            omega
          omega
        · have : mx ≤ g.stack p := by rw [hmx1]; exact min_le_right _ _
          omega
    | noLimitBetting =>
      rw [hbt] at hb
      have hpair : (min (s.maxSpent + s.minNoLimitRaiseIncrement) (g.stack p),
          g.stack p) = (mn, mx) := by
        injection hb
      have hmn1 : mn = min (s.maxSpent + s.minNoLimitRaiseIncrement) (g.stack p) :=
        (congrArg Prod.fst hpair).symm
      have hmx1 : mx = g.stack p := (congrArg Prod.snd hpair).symm
      have hinc := hs.inc_pos
      constructor
      · have hlt : s.maxSpent < min (s.maxSpent + s.minNoLimitRaiseIncrement) (g.stack p) := by
          omega
        omega
      · omega

theorem inv_step {g : Game} {s : HandState} {a : Action} {s' : HandState}
    (hg : ValidGame g) (hs : Inv g s)
    (h : do_action g s a = (Except.ok (), s')) : Inv g s' := by
  obtain ⟨hv, rfl⟩ := do_action_ok h
  obtain ⟨hfin, p, hcp⟩ := valid_shape hv
  obtain ⟨-, hpnf, hplt, hprange⟩ := current_player_spec hcp
  have hn : 0 < g.numPlayers := by have := hg.1; omega
  have hpn : p < g.numPlayers := hprange hn
  have hpmem : p ∈ Finset.range g.numPlayers := Finset.mem_range.mpr hpn
  have hms_nonneg : 0 ≤ s.maxSpent := by
    obtain ⟨w, hw, hweq⟩ := hs.max_attained
    have := hs.spent_nonneg w hw
    omega
  have hstackp : 0 ≤ g.stack p := by
    have h1 := (hg.2.2.2.2.1 p hpmem).1
    have h2 := (hg.2.2.2.2.1 p hpmem).2
    omega
  unfold applyAction
  rw [hcp]
  cases a with
  | invalid => rw [invalid_never] at hv; cases hv
  | fold =>
    apply inv_of_advance
    · exact hs.spent_nonneg
    · exact hs.spent_le_stack
    · exact hs.spent_le_max
    · exact hs.max_attained
    · show 1 ≤ ((Finset.range g.numPlayers).filter
        (fun q => (if q = p then true else s.playerFolded q) = false)).card
      rw [card_filter_update_true hpn hpnf]
      have := hs.nonFolded_two hfin
      unfold numNonFolded at this
      omega
    · exact hs.inc_pos
    · exact hs.round_lt
  | call =>
    apply inv_of_advance
    · intro q hq
      show 0 ≤ if q = p then min s.maxSpent (g.stack p) else s.spent q
      by_cases hqp : q = p
      · rw [if_pos hqp]
        exact le_min hms_nonneg hstackp
      · rw [if_neg hqp]
        exact hs.spent_nonneg q hq
    · intro q hq
      show (if q = p then min s.maxSpent (g.stack p) else s.spent q) ≤ g.stack q
      by_cases hqp : q = p
      · rw [if_pos hqp, hqp]
        exact min_le_right _ _
      · rw [if_neg hqp]
        exact hs.spent_le_stack q hq
    · intro q hq
      show (if q = p then min s.maxSpent (g.stack p) else s.spent q) ≤ s.maxSpent
      by_cases hqp : q = p
      · rw [if_pos hqp]
        exact min_le_left _ _
      · rw [if_neg hqp]
        exact hs.spent_le_max q hq
    · obtain ⟨w, hw, hweq⟩ := hs.max_attained
      refine ⟨w, hw, ?_⟩
      show (if w = p then min s.maxSpent (g.stack p) else s.spent w) = s.maxSpent
      by_cases hwp : w = p
      · rw [if_pos hwp]
        have hws : s.spent w ≤ g.stack w := hs.spent_le_stack w hw
        rw [min_eq_left (by rw [← hwp]; omega)]
      · rw [if_neg hwp]
        exact hweq
    · exact hs.nonFolded_pos
    · exact hs.inc_pos
    · exact hs.round_lt
  | raise t =>
    obtain ⟨hmslt, htle⟩ := raise_facts hg hs hcp hv
    apply inv_of_advance
    · intro q hq
      show 0 ≤ if q = p then t else s.spent q
      by_cases hqp : q = p
      · rw [if_pos hqp]
        omega
      · rw [if_neg hqp]
        exact hs.spent_nonneg q hq
    · intro q hq
      show (if q = p then t else s.spent q) ≤ g.stack q
      by_cases hqp : q = p
      · rw [if_pos hqp, hqp]
        exact htle
      · rw [if_neg hqp]
        exact hs.spent_le_stack q hq
    · intro q hq
      show (if q = p then t else s.spent q) ≤ t
      by_cases hqp : q = p
      · rw [if_pos hqp]
      · rw [if_neg hqp]
        have := hs.spent_le_max q hq
        omega
    · refine ⟨p, hpmem, ?_⟩
      show (if p = p then t else s.spent p) = t
      rw [if_pos rfl]
    · exact hs.nonFolded_pos
    · show (1 : Int) ≤ (match g.bettingType with
        | BettingType.noLimitBetting => t - s.maxSpent
        | BettingType.limitBetting => s.minNoLimitRaiseIncrement)
      cases g.bettingType with
      | limitBetting => exact hs.inc_pos
      | noLimitBetting =>
        show 1 ≤ t - s.maxSpent
        omega
    · exact hs.round_lt

theorem inv_setBoard {g : Game} {s s' : HandState} {cards : List Card}
    (hs : Inv g s) (h : set_board_cards s cards = some s') : Inv g s' := by
  unfold set_board_cards at h
  by_cases hl : cards.length ≤ 7
  · rw [if_pos hl] at h
    injection h with h
    subst h
    exact ⟨hs.spent_nonneg, hs.spent_le_stack, hs.spent_le_max, hs.max_attained,
      hs.nonFolded_pos, hs.nonFolded_two, hs.inc_pos, hs.round_lt⟩
  · rw [if_neg hl] at h; cases h

theorem inv_setHole {g : Game} {s s' : HandState} {player : Nat} {cards : List Card}
    (hs : Inv g s) (h : set_hole_cards g s player cards = some s') : Inv g s' := by
  unfold set_hole_cards at h
  split_ifs at h
  injection h with h
  subst h
  exact ⟨hs.spent_nonneg, hs.spent_le_stack, hs.spent_le_max, hs.max_attained,
    hs.nonFolded_pos, hs.nonFolded_two, hs.inc_pos, hs.round_lt⟩

theorem reachable_inv {g : Game} {s : HandState} (hg : ValidGame g)
    (hr : Reachable g s) : Inv g s := by
  induction hr with
  | init => exact inv_init hg
  | step _ hstep ih => exact inv_step hg ih hstep
  | setBoard _ hset ih => exact inv_setBoard ih hset
  | setHole _ hset ih => exact inv_setHole ih hset

theorem winners_exist {g : Game} {s : HandState}
    (hsur : 1 ≤ numNonFolded g s) : 1 ≤ numWinners g s := by
  have hpos : 0 < ((Finset.range g.numPlayers).filter
      (fun p => s.playerFolded p = false)).card := by
    unfold numNonFolded at hsur
    omega
  obtain ⟨q, hq⟩ := Finset.card_pos.mp hpos
  obtain ⟨hqr, hqf⟩ := Finset.mem_filter.mp hq
  have hqL : q ∈ (List.range g.numPlayers).filter (fun p => !s.playerFolded p) := by
    refine List.mem_filter.mpr ⟨List.mem_range.mpr (Finset.mem_range.mp hqr), ?_⟩
    simp [hqf]
  have hne : ((List.range g.numPlayers).filter (fun p => !s.playerFolded p)).map
      (rankOf g s) ≠ [] := by
    intro hcontra
    rw [List.map_eq_nil_iff] at hcontra
    rw [hcontra] at hqL
    cases hqL
  obtain ⟨w, hwL, hweq⟩ := List.mem_map.mp (foldr_max_mem_nat hne)
  obtain ⟨hwr, hwf⟩ := List.mem_filter.mp hwL
  have hwin : isWinner g s w = true := by
    unfold isWinner
    rw [Bool.and_eq_true]
    refine ⟨hwf, ?_⟩
    unfold bestRank
    exact beq_iff_eq.mpr hweq
  have hwmem : w ∈ (Finset.range g.numPlayers).filter (fun p => isWinner g s p = true) :=
    Finset.mem_filter.mpr ⟨Finset.mem_range.mpr (List.mem_range.mp hwr), hwin⟩
  unfold numWinners
  have := Finset.card_pos.mpr ⟨w, hwmem⟩
  omega

theorem sum_values_zero {g : Game} {s : HandState}
    (hsur : 1 ≤ numNonFolded g s) : sumValues g s = 0 := by
  by_cases hone : numNonFolded g s = 1
  · have hpt : ∀ p ∈ Finset.range g.numPlayers,
        valueOfState g s p
          = -((s.spent p : Rat)) + (if s.playerFolded p = false then potQ g s else 0) := by
      intro p hp
      unfold valueOfState
      by_cases hfold : s.playerFolded p
      · rw [if_pos hfold, if_neg (by simp [hfold])]
        ring
      · have herase : ∑ q in (Finset.range g.numPlayers).erase p, ((s.spent q : Rat))
            = potQ g s - ((s.spent p : Rat)) := by
          have hadd := Finset.add_sum_erase (Finset.range g.numPlayers)
            (fun q => ((s.spent q : Rat))) hp
          unfold potQ
          simp only at hadd
          linarith
        rw [if_neg hfold, if_pos hone, herase,
          if_pos ((Bool.not_eq_true _).mp hfold)]
        ring
    have hsum : sumValues g s
        = ∑ p in Finset.range g.numPlayers,
            (-((s.spent p : Rat)) + (if s.playerFolded p = false then potQ g s else 0)) :=
      Finset.sum_congr rfl hpt
    rw [hsum, Finset.sum_add_distrib]
    have hif : ∑ p in Finset.range g.numPlayers,
        (if s.playerFolded p = false then potQ g s else 0)
        = ∑ p in (Finset.range g.numPlayers).filter (fun p => s.playerFolded p = false),
            potQ g s := (Finset.sum_filter _ _).symm
    rw [hif, Finset.sum_const]
    have hcard : ((Finset.range g.numPlayers).filter
        (fun p => s.playerFolded p = false)).card = 1 := hone
    rw [hcard]
    unfold potQ
    rw [Finset.sum_neg_distrib, one_smul]
    ring
  · have hwinpos := winners_exist hsur
    have hkne : ((numWinners g s : Nat) : Rat) ≠ 0 := by
      have hlt : (0 : Rat) < ((numWinners g s : Nat) : Rat) := by
        exact_mod_cast Nat.lt_of_lt_of_le Nat.zero_lt_one hwinpos
      exact ne_of_gt hlt
    have hpt : ∀ p ∈ Finset.range g.numPlayers,
        valueOfState g s p
          = -((s.spent p : Rat))
            + (if isWinner g s p = true then potQ g s / ((numWinners g s : Nat) : Rat) else 0) := by
      intro p hp
      unfold valueOfState
      by_cases hfold : s.playerFolded p
      · have hnw : isWinner g s p = false := by
          unfold isWinner
          rw [hfold]
          rfl
        rw [if_pos hfold, if_neg (by rw [hnw]; simp)]
        ring
      · rw [if_neg hfold, if_neg hone]
        by_cases hw : isWinner g s p = true
        · rw [if_pos hw, if_pos hw]
          ring
        · rw [if_neg hw, if_neg hw]
          ring
    have hsum : sumValues g s
        = ∑ p in Finset.range g.numPlayers,
            (-((s.spent p : Rat))
              + (if isWinner g s p = true then potQ g s / ((numWinners g s : Nat) : Rat) else 0)) :=
      Finset.sum_congr rfl hpt
    rw [hsum, Finset.sum_add_distrib]
    have hif : ∑ p in Finset.range g.numPlayers,
        (if isWinner g s p = true then potQ g s / ((numWinners g s : Nat) : Rat) else 0)
        = ∑ p in (Finset.range g.numPlayers).filter (fun p => isWinner g s p = true),
            potQ g s / ((numWinners g s : Nat) : Rat) := (Finset.sum_filter _ _).symm
    rw [hif, Finset.sum_const]
    have hcard : ((Finset.range g.numPlayers).filter
        (fun p => isWinner g s p = true)).card = numWinners g s := rfl
    rw [hcard, nsmul_eq_mul, mul_div_assoc']
    rw [mul_comm, mul_div_assoc, div_self hkne, mul_one]
    unfold potQ
    rw [Finset.sum_neg_distrib]
    ring

theorem folded_mono_action {g : Game} {s : HandState} {a : Action} {s' : HandState} {p : Nat}
    (h : do_action g s a = (Except.ok (), s'))
    (hp : s.playerFolded p = true) : s'.playerFolded p = true := by
  obtain ⟨hv, rfl⟩ := do_action_ok h
  unfold applyAction
  cases hcp : current_player g s with
  | none => exact hp
  | some q =>
    cases a with
    | invalid => exact hp
    | fold =>
      rw [advance_folded]
      show (if p = q then true else s.playerFolded p) = true
      by_cases hpq : p = q
      · rw [if_pos hpq]
      · rw [if_neg hpq]; exact hp
    | call =>
      rw [advance_folded]
      exact hp
    | raise t =>
      rw [advance_folded]
      exact hp

theorem folded_setBoard {s s' : HandState} {cards : List Card} {p : Nat}
    (h : set_board_cards s cards = some s')
    (hp : s.playerFolded p = true) : s'.playerFolded p = true := by
  unfold set_board_cards at h
  split_ifs at h
  injection h with h
  subst h
  exact hp

theorem folded_setHole {g : Game} {s s' : HandState} {player : Nat} {cards : List Card} {p : Nat}
    (h : set_hole_cards g s player cards = some s')
    (hp : s.playerFolded p = true) : s'.playerFolded p = true := by
  unfold set_hole_cards at h
  split_ifs at h
  injection h with h
  subst h
  exact hp

theorem folded_mono_reaches {g : Game} {s s' : HandState} {p : Nat}
    (h : Reaches g s s') (hp : s.playerFolded p = true) : s'.playerFolded p = true := by
  induction h with
  | refl => exact hp
  | tail _ hstep ih =>
    rcases hstep with ⟨a, ha⟩ | ⟨cards, hc⟩ | ⟨player, cards, hc⟩
    · exact folded_mono_action ha ih
    · exact folded_setBoard hc ih
    · exact folded_setHole hc ih

theorem current_player_not_folded {g : Game} {s : HandState} {p : Nat}
    (hp : s.playerFolded p = true) : current_player g s ≠ some p := by
  intro hcp
  obtain ⟨-, hnf, -, -⟩ := current_player_spec hcp
  rw [hp] at hnf
  cases hnf

theorem fold_finishes {g : Game} {s : HandState} {s' : HandState}
    (h : do_action g s Action.fold = (Except.ok (), s'))
    (hone : numNonFolded g s' = 1) : s'.finished = true := by
  obtain ⟨hv, rfl⟩ := do_action_ok h
  obtain ⟨hfin, q, hcp⟩ := valid_shape hv
  have heq : applyAction g s Action.fold
      = advanceIfNeeded g
          { s with
            playerFolded := fun q' => if q' = q then true else s.playerFolded q'
            log := logAdd s q Action.fold } := by
    unfold applyAction
    rw [hcp]
  rw [heq] at hone ⊢
  rw [advance_numNonFolded] at hone
  rw [advance_finished_of_le_one (le_of_eq hone)]

theorem takeWhile_append_sentinel (l : List Card) (k : Nat) :
    ((l ++ List.replicate k NOT_DEALT).takeWhile (fun c => c != NOT_DEALT))
      = l.takeWhile (fun c => c != NOT_DEALT) := by
  induction l with
  | nil =>
    cases k with
    | zero => rfl
    | succ k => rfl
  | cons a l ih =>
    by_cases ha : (a != NOT_DEALT) = true
    · simp only [List.cons_append, List.takeWhile_cons, ha]
      rw [ih]
    · have ha' : (a != NOT_DEALT) = false := by
        cases hb : (a != NOT_DEALT) with
        | false => rfl
        | true => exact absurd hb ha
      simp only [List.cons_append, List.takeWhile_cons, ha']
      simp

theorem takeWhile_all_of_no_sentinel {l : List Card} (h : NOT_DEALT ∉ l) :
    l.takeWhile (fun c => c != NOT_DEALT) = l := by
  induction l with
  | nil => rfl
  | cons a l ih =>
    have ha : (a != NOT_DEALT) = true := by
      have : a ≠ NOT_DEALT := fun hc => h (hc ▸ List.mem_cons_self a l)
      simp [this]
    simp only [List.takeWhile_cons, ha]
    simp only [if_true]
    rw [ih (fun hm => h (List.mem_cons_of_mem a hm))]

theorem value_of_state_not_finished {g : Game} {s : HandState}
    (hfin : is_finished s = false) (player : Nat) :
    value_of_state g s player = Except.error "Game is not finished" := by
  unfold value_of_state
  rw [hfin]
  rfl

theorem notFinished_msg_ne (q : Nat) :
    "Game is not finished" ≠ "Invalid player index " ++ toString q := by
  intro h
  have hd := congrArg String.data h
  rw [String.data_append] at hd
  have h1 : ("Game is not finished".data).head? = some 'G' := rfl
  rw [hd] at h1
  have h2 : (("Invalid player index ".data) ++ (toString q).data).head? = some 'I' := rfl
  rw [h2] at h1
  exact absurd h1 (by decide)

theorem value_of_state_finished {g : Game} {s : HandState} {player : Nat}
    (hfin : s.finished = true) (hlt : player < g.numPlayers) :
    value_of_state g s player = Except.ok (valueOfState g s player) := by
  unfold value_of_state
  rw [show is_finished s = true from hfin]
  show (match player_idx g player with
    | Except.error e => Except.error e
    | Except.ok idx => Except.ok (valueOfState g s idx)) = _
  unfold player_idx
  rw [if_neg (by omega)]

/-! ### Concrete evaluations mirroring the repository test suite -/

example : current_player holdemNoLimit3p refTrace0 = some 2 := by decide

example : raise_size holdemNoLimit3p refTrace0 = Except.ok (200, 20000) := rfl

example : do_action holdemNoLimit3p refTrace0 (Action.raise 200)
    = (Except.ok (), refTrace1) := rfl

example : raise_size holdemNoLimit3p refTrace1 = Except.ok (300, 20000) := rfl

example : raise_size holdemNoLimit3p refTrace2 = Except.ok (1800, 20000) := rfl

example : (refTrace2.spent 0, refTrace2.spent 1, refTrace2.spent 2) = (1000, 100, 200) := by decide

example : current_player holdemNoLimit3p refTrace2 = some 1 := by decide

example : current_player holdemNoLimit3p t1 = some 0 := by decide

example : current_player holdemNoLimit3p t2 = some 1 := by decide

example : current_player holdemNoLimit3p t3 = some 0 := by decide

example : (t1.playerFolded 0, t1.playerFolded 2) = (false, true) := by decide

example : numNonFolded holdemNoLimit3p t1 = 2 := by decide

example : is_valid_action holdemNoLimit3p t0 Action.fold = true := by decide

example : is_valid_action holdemNoLimit3p t0 Action.call = true := by decide

example : is_valid_action holdemNoLimit3p t0 (Action.raise 100) = false := by decide

example : is_valid_action holdemNoLimit3p t0 (Action.raise 1000) = true := by decide

example : is_valid_action holdemNoLimit3p t0 (Action.raise 20001) = false := by decide

example : (u6.round, u7.round) = (0, 1) := by decide

example : ((u7.log 1).length, u7.finished) = (0, false) := by decide

example : current_player holdemNoLimit3p u7 = some 0 := by decide

example : (u7.spent 0, u7.spent 1, u7.spent 2) = (2000, 2000, 1000) := by decide

example : (u5.spent 0, u5.spent 1, u5.spent 2) = (2000, 1000, 1000) := by decide

example : (w3.round, w3.finished) = (1, false) := by decide

example : (w6.round, w6.finished) = (2, false) := by decide

example : (wC.round, wC.finished) = (3, true) := by decide

example : value_of_state holdemNoLimit3p wC 3 = Except.error "Invalid player index 3" := rfl

example : numWinners holdemNoLimit3p wC = 3 := by decide

example : numNonFolded holdemNoLimit3p wC = 3 := by decide

example : ValidGame unequal3p := by decide

example : do_action unequal3p cx0 Action.fold = (Except.ok (), cx1) := rfl

example : is_valid_action unequal3p cx1 (Action.raise 1000) = true := by decide

example : is_valid_action unequal3p cx2 Action.call = true := by decide

example : is_valid_action unequal3p cx3 Action.fold = true := by decide

example : cx4.finished = true := by decide

example : (cx4.maxSpent, cx4.spent 1, cx4.playerFolded 0, cx4.playerFolded 1, cx4.playerFolded 2)
    = (1000, 150, true, false, true) := by decide

example : ValidGame headsUp2p := by decide

example : (headsUp1.finished, headsUp1.playerFolded 0, numNonFolded headsUp2p headsUp1)
    = (true, true, 1) := by decide

/-! ### The claims -/

/-- C1: for every reachable finished state of a hand, the sum of
`value_of_state(p)` over all players `p < numPlayers` equals 0 exactly,
regardless of how chips were committed during the hand.  On a finished hand
the Rust wrapper returns the native payoff for every in-range player, and
those payoffs sum to zero. -/
theorem claim_C1_zero_sum {g : Game} {s : HandState} (hg : ValidGame g)
    (hr : Reachable g s) (hfin : s.finished = true) :
    (∀ p ∈ Finset.range g.numPlayers,
      value_of_state g s p = Except.ok (valueOfState g s p)) ∧
    sumValues g s = 0 := by
  refine ⟨fun p hp => value_of_state_finished hfin (Finset.mem_range.mp hp), ?_⟩
  exact sum_values_zero (reachable_inv hg hr).nonFolded_pos

/-- Witness for C1 at a concrete reachable finished hand (heads-up, player 0
folds at once). -/
theorem claim_C1_zero_sum_witness :
    ValidGame headsUp2p ∧ headsUp1.finished = true ∧ sumValues headsUp2p headsUp1 = 0 := by
  have hreach : Reachable headsUp2p headsUp1 :=
    @Reachable.step headsUp2p headsUp0 headsUp1 Action.fold Reachable.init rfl
  exact ⟨by decide, by decide, (claim_C1_zero_sum (by decide) hreach (by decide)).2⟩

/-- C2: for every state and every action `a`, if `is_valid_action(a)` is
false then `do_action(a)` reports the invalid-action error and leaves the
entire state — all fields — exactly unchanged (the returned state is the
argument state itself). -/
theorem claim_C2_all_or_nothing {g : Game} {s : HandState} {a : Action}
    (h : is_valid_action g s a = false) :
    do_action g s a = (Except.error "Invalid Action", s) := by
  unfold do_action
  rw [h]
  rfl

/-- Witness for C2: `Raise(100)` is invalid right after initialization of the
reference game (it is below the minimum raise target 200) and the state is
returned unchanged. -/
theorem claim_C2_all_or_nothing_witness :
    is_valid_action holdemNoLimit3p refTrace0 (Action.raise 100) = false ∧
    do_action holdemNoLimit3p refTrace0 (Action.raise 100)
      = (Except.error "Invalid Action", refTrace0) :=
  ⟨by decide, claim_C2_all_or_nothing (by decide)⟩

/-- C3, counterexample to the claim as stated: a raise target is allowed to
lie exactly on a bound returned by `raise_size()`, so "strictly within" (in
the sense of strict inequalities) fails.  Right after initialization of the
reference game, the bounds are `(200, 20000)` and `Raise(200)` — the lower
bound itself — is valid (the repository test `is_valid_action` likewise
accepts boundary raises such as `Raise(20000)` when the maximum is 20000). -/
theorem claim_C3_counterexample :
    is_valid_action holdemNoLimit3p refTrace0 (Action.raise 200) = true ∧
    raise_size holdemNoLimit3p refTrace0 = Except.ok (200, 20000) ∧
    ¬((200 : Int) < 200 ∧ (200 : Int) < 20000) :=
  ⟨by decide, rfl, by decide⟩

/-- C3, amended: in every reachable state, if `raise_size()` returns bounds
`(minTarget, maxTarget)` then `is_valid_action(Raise(target))` returns true
only if `minTarget ≤ target ≤ maxTarget` (bounds inclusive), and when
`raise_size()` fails no `Raise(target)` is valid for any target. -/
theorem claim_C3_raise_within_bounds {g : Game} {s : HandState} {t : Int}
    (_hg : ValidGame g) (_hr : Reachable g s) :
    (is_valid_action g s (Action.raise t) = true →
      ∃ mn mx, raise_size g s = Except.ok (mn, mx) ∧ mn ≤ t ∧ t ≤ mx) ∧
    ((∃ e, raise_size g s = Except.error e) →
      is_valid_action g s (Action.raise t) = false) := by
  constructor
  · intro hv
    obtain ⟨mn, mx, hb, h1, h2⟩ := valid_raise hv
    refine ⟨mn, mx, ?_, h1, h2⟩
    unfold raise_size
    rw [hb]
  · rintro ⟨e, he⟩
    apply invalid_raise_of_no_bounds
    unfold raise_size at he
    cases hb : raiseBounds g s with
    | none => rfl
    | some b => rw [hb] at he; cases he

/-- Witness for the amended C3 at the reference game's initial state with
target 200. -/
theorem claim_C3_witness :
    ∃ mn mx, raise_size holdemNoLimit3p refTrace0 = Except.ok (mn, mx) ∧
      mn ≤ (200 : Int) ∧ (200 : Int) ≤ mx :=
  (claim_C3_raise_within_bounds (by decide) Reachable.init).1 (by decide)

/-- C4: in a no-limit game `raise_size()` returns
`(min(maxSpent + minNoLimitRaiseIncrement, actingPlayerStack), actingPlayerStack)`;
after a successful raise to `T` from previous `maxSpent = M` the minimum
increment becomes `T − M`; and in the reference 3-player game (stacks
20000/20000/20000, blinds 50/100/0) the bounds are `(200, 20000)` after
initialization, `(300, 20000)` after `Raise(200)` and `(1800, 20000)` after a
further `Raise(1000)`. -/
theorem claim_C4_no_limit_raise_bounds :
    (∀ (g : Game) (s : HandState) (p : Nat),
      g.bettingType = BettingType.noLimitBetting →
      current_player g s = some p →
      s.maxSpent < g.stack p →
      raise_size g s
        = Except.ok (min (s.maxSpent + s.minNoLimitRaiseIncrement) (g.stack p), g.stack p)) ∧
    (∀ (g : Game) (s : HandState) (t : Int) (s' : HandState),
      g.bettingType = BettingType.noLimitBetting →
      do_action g s (Action.raise t) = (Except.ok (), s') →
      s'.minNoLimitRaiseIncrement = t - s.maxSpent) ∧
    raise_size holdemNoLimit3p refTrace0 = Except.ok (200, 20000) ∧
    raise_size holdemNoLimit3p refTrace1 = Except.ok (300, 20000) ∧
    raise_size holdemNoLimit3p refTrace2 = Except.ok (1800, 20000) := by
  refine ⟨?_, ?_, rfl, rfl, rfl⟩
  · intro g s p hbt hcp hms
    unfold raise_size raiseBounds
    rw [hcp]
    simp only
    rw [if_neg (not_le.mpr hms), hbt]
  · intro g s t s' hbt h
    obtain ⟨hv, rfl⟩ := do_action_ok h
    obtain ⟨-, p, hcp⟩ := valid_shape hv
    unfold applyAction
    rw [hcp]
    simp only
    rw [advance_inc]
    show (match g.bettingType with
      | BettingType.noLimitBetting => t - s.maxSpent
      | BettingType.limitBetting => s.minNoLimitRaiseIncrement) = t - s.maxSpent
    rw [hbt]

/-- Witness for C4's universally quantified part at the reference game after
`Raise(200)`: the acting player is 0 and the formula gives `(300, 20000)`. -/
theorem claim_C4_witness :
    raise_size holdemNoLimit3p refTrace1
      = Except.ok (min (refTrace1.maxSpent + refTrace1.minNoLimitRaiseIncrement)
          (holdemNoLimit3p.stack 0), holdemNoLimit3p.stack 0) :=
  claim_C4_no_limit_raise_bounds.1 holdemNoLimit3p refTrace1 0 rfl (by decide) (by decide)

/-- C5, counterexample to the claim as stated: in a 3-player no-limit game
with stacks 20000/150/150 and blinds 50/100/0, the hand reaches — through
valid actions only (player 2 folds, player 0 raises to 1000, player 1 calls
all-in for 150, player 0 folds) — a state with `maxSpent = 1000` in which the
only non-folded player has `spent = 150`: `maxSpent` is not attained by any
non-folded player.  The fold rule of the spec ("valid iff the player has not
already folded and is not all-in") lets the sole player matching `maxSpent`
fold. -/
theorem claim_C5_counterexample :
    ValidGame unequal3p ∧ Reachable unequal3p cx4 ∧
    ¬ maxSpent_nonfolded_claim unequal3p cx4 := by
  refine ⟨by decide, ?_, by decide⟩
  exact @Reachable.step unequal3p cx3 cx4 Action.fold
    (@Reachable.step unequal3p cx2 cx3 Action.call
      (@Reachable.step unequal3p cx1 cx2 (Action.raise 1000)
        (@Reachable.step unequal3p cx0 cx1 Action.fold Reachable.init rfl) rfl) rfl) rfl

/-- C5, amended: in every reachable state, `0 ≤ spent[p] ≤ stack[p]` for
every player `p < numPlayers`, and `maxSpent` equals the maximum of
`spent[p]` over all players — folded players included (the restriction to
non-folded players fails, see the counterexample).  Preservation under every
successful `do_action` is the induction step of reachability. -/
theorem claim_C5_spent_bounds_and_max {g : Game} {s : HandState}
    (hg : ValidGame g) (hr : Reachable g s) :
    (∀ p ∈ Finset.range g.numPlayers, 0 ≤ s.spent p ∧ s.spent p ≤ g.stack p) ∧
    (∀ p ∈ Finset.range g.numPlayers, s.spent p ≤ s.maxSpent) ∧
    (∃ p ∈ Finset.range g.numPlayers, s.spent p = s.maxSpent) := by
  have hI := reachable_inv hg hr
  exact ⟨fun p hp => ⟨hI.spent_nonneg p hp, hI.spent_le_stack p hp⟩,
    hI.spent_le_max, hI.max_attained⟩

/-- Witness for the amended C5 at the reference game's initial state. -/
theorem claim_C5_witness :
    (∀ p ∈ Finset.range holdemNoLimit3p.numPlayers,
      0 ≤ refTrace0.spent p ∧ refTrace0.spent p ≤ holdemNoLimit3p.stack p) ∧
    (∀ p ∈ Finset.range holdemNoLimit3p.numPlayers,
      refTrace0.spent p ≤ refTrace0.maxSpent) ∧
    (∃ p ∈ Finset.range holdemNoLimit3p.numPlayers,
      refTrace0.spent p = refTrace0.maxSpent) :=
  claim_C5_spent_bounds_and_max (by decide) Reachable.init

/-- C6: for every player argument (in range or not), `value_of_state(player)`
fails with the not-finished error whenever `is_finished()` is false; no
payoff is ever returned before the hand is finished. -/
theorem claim_C6_not_finished_error {g : Game} {s : HandState}
    (hfin : is_finished s = false) :
    ∀ player : Nat, value_of_state g s player = Except.error "Game is not finished" :=
  fun player => value_of_state_not_finished hfin player

/-- Witness for C6 at the unfinished initial reference state, for an in-range
and an out-of-range player. -/
theorem claim_C6_witness :
    is_finished refTrace0 = false ∧
    value_of_state holdemNoLimit3p refTrace0 0 = Except.error "Game is not finished" ∧
    value_of_state holdemNoLimit3p refTrace0 7 = Except.error "Game is not finished" :=
  ⟨by decide, claim_C6_not_finished_error (by decide) 0,
    claim_C6_not_finished_error (by decide) 7⟩

/-- C7: for every reachable state, if a successful `do_action(Fold)` leaves
only one non-folded player, the hand is immediately finished, regardless of
the current round. -/
theorem claim_C7_fold_to_one_finishes {g : Game} {s s' : HandState}
    (_hg : ValidGame g) (_hr : Reachable g s)
    (h : do_action g s Action.fold = (Except.ok (), s'))
    (hone : numNonFolded g s' = 1) : s'.finished = true :=
  fold_finishes h hone

/-- Witness for C7: heads-up, player 0 folds from the initial state and the
hand is finished at once. -/
theorem claim_C7_witness : headsUp1.finished = true :=
  claim_C7_fold_to_one_finishes (g := headsUp2p) (by decide) Reachable.init rfl (by decide)

/-- C8: once a fold by player `p` has been applied in a reachable state,
`player_folded(p)` reports true in every later state of the hand, and
`current_player()` never again selects `p`. -/
theorem claim_C8_folded_forever {g : Game} {s s' : HandState} {p : Nat}
    (_hg : ValidGame g) (_hr : Reachable g s)
    (hp : s.playerFolded p = true) (hlt : p < g.numPlayers)
    (hreach : Reaches g s s') :
    player_folded g s' p = Except.ok true ∧ current_player g s' ≠ some p := by
  have hf := folded_mono_reaches hreach hp
  constructor
  · show (match player_idx g p with
      | Except.error e => Except.error e
      | Except.ok idx => Except.ok (s'.playerFolded idx)) = Except.ok true
    unfold player_idx
    rw [if_neg (by omega)]
    show Except.ok (s'.playerFolded p) = Except.ok true
    rw [hf]
  · exact current_player_not_folded hf

/-- Witness for C8: heads-up after player 0 folds — still folded and never
the current player (the hand is finished, so no player is selected). -/
theorem claim_C8_witness :
    player_folded headsUp2p headsUp1 0 = Except.ok true ∧
    current_player headsUp2p headsUp1 ≠ some 0 :=
  claim_C8_folded_forever (by decide)
    (@Reachable.step headsUp2p headsUp0 headsUp1 Action.fold Reachable.init rfl)
    (by decide) (by decide) Relation.ReflTransGen.refl

/-- C9: for every slice of at most 7 cards, `set_board_cards` succeeds with
no validation against the round's board-card schedule (it does not even
consult the game definition, and the round is untouched), and `board_cards()`
then returns the longest prefix of the stored 7-slot board preceding the
first not-dealt sentinel — exactly the slice when the slice is free of the
sentinel value 255, and the slice silently truncated at the first 255
otherwise. -/
theorem claim_C9_board_cards_roundtrip {s : HandState} {cards : List Card}
    (hlen : cards.length ≤ 7) :
    ∃ s', set_board_cards s cards = some s' ∧
      board_cards s' = cards.takeWhile (fun c => c != NOT_DEALT) ∧
      (NOT_DEALT ∉ cards → board_cards s' = cards) ∧
      s'.round = s.round ∧ s'.spent = s.spent := by
  refine ⟨{ s with boardCards := cards ++ List.replicate (7 - cards.length) NOT_DEALT },
    ?_, ?_, ?_, rfl, rfl⟩
  · unfold set_board_cards
    rw [if_pos hlen]
  · exact takeWhile_append_sentinel cards _
  · intro hno
    have hb : board_cards
        { s with boardCards := cards ++ List.replicate (7 - cards.length) NOT_DEALT }
        = cards.takeWhile (fun c => c != NOT_DEALT) :=
      takeWhile_append_sentinel cards _
    rw [hb, takeWhile_all_of_no_sentinel hno]

/-- Witness for C9 with the board `[17, 19, 23]` of the repository test. -/
theorem claim_C9_witness :
    ∃ s', set_board_cards refTrace0 [17, 19, 23] = some s' ∧
      board_cards s' = List.takeWhile (fun c => c != NOT_DEALT) [17, 19, 23] ∧
      (NOT_DEALT ∉ [17, 19, 23] → board_cards s' = [17, 19, 23]) ∧
      s'.round = refTrace0.round ∧ s'.spent = refTrace0.spent :=
  claim_C9_board_cards_roundtrip (by decide)

/-- C10: `value_of_state` checks hand completion before validating the player
index — for every unfinished state, even an out-of-range player argument gets
the not-finished error, and the invalid-index error is only observable once
the hand is finished. -/
theorem claim_C10_check_order {g : Game} {s : HandState} {player : Nat}
    (_hout : g.numPlayers ≤ player) (hfin : is_finished s = false) :
    value_of_state g s player = Except.error "Game is not finished" ∧
    (∀ (s₂ : HandState) (q : Nat),
      value_of_state g s₂ q = Except.error ("Invalid player index " ++ toString q) →
      is_finished s₂ = true) := by
  refine ⟨value_of_state_not_finished hfin player, ?_⟩
  intro s₂ q hval
  by_contra hnf
  have h2 : is_finished s₂ = false := by
    cases hv : is_finished s₂ with
    | false => rfl
    | true => exact absurd hv hnf
  rw [value_of_state_not_finished h2 q] at hval
  injection hval with hmsg
  exact notFinished_msg_ne q hmsg

/-- Witness for C10 at the unfinished initial reference state with the
out-of-range player 5. -/
theorem claim_C10_witness :
    value_of_state holdemNoLimit3p refTrace0 5 = Except.error "Game is not finished" :=
  (claim_C10_check_order (by decide) (by decide)).1

end Acpc
